import Mathlib

/-!
Verification of the `NftZk` Compact contract module
(`contracts/tokens/nft-zk/src/modules/NftZk`, a privacy-preserving NFT
ledger for the Midnight blockchain).

The module keeps four ledger maps — `tokenOwner`, `tokenApprovals`,
`ownedTokensCount`, `operatorApprovals` — and exposes the circuits
`balanceOf`, `ownerOf`, `tokenExists`, `approve`, `getApproved`,
`setApprovalForAll`, `isApprovedForAll`, `transfer`, `transferFrom`,
`mint`, `burn` plus the helpers `isApprovedOrOwner`, `addTokenTo`,
`removeTokenFrom`, `clearApproval` and the pure `generateHashKey`.

Modelling choices:
* `Field` elements, 32-byte strings (public keys, secrets) and `Uint<64>`
  token ids are all modelled as `Nat`; the `default` value of each is `0`.
* The two instantiations of `transientHash` used by the module
  (`transientHash<[Bytes<32>, Bytes<32>]>` inside `generateHashKey`, and
  `transientHash<[Field, Field]>` for operator-approval keys) are opaque
  to the contract; they are carried as two function parameters in `Env`
  so that theorems quantify over the hash and state cryptographic
  idealisations (injectivity) explicitly where they are needed.
* The caller of a circuit is a `Caller`: its Zswap public key
  (`ownPublicKey()`) and the two values its witness functions
  `getLocalSecret` / `getSharedSecret` return.
* A ledger `Map` is an association list; `insert` replaces, `remove`
  deletes, `lookup` on an absent key aborts (`NotFound`), exactly as the
  Compact runtime map behaves.
* A circuit body is a function `State → MRes α`: it threads the ledger
  state through each map mutation, and a failed `assert` / lookup /
  counter underflow aborts with the error message and the state as
  mutated so far.  The execution substrate commits a transaction only on
  success; `execSt` below is that atomic commit-or-rollback runner.
-/

namespace NftZk

/-- 32-byte values (public keys, secrets): `default<ZswapCoinPublicKey>` is 0. -/
abbrev Bytes32 := Nat

/-- Compact `Field` elements (hash keys): `default<Field>` is 0. -/
abbrev Fld := Nat

/-- The two `transientHash` instantiations the module uses.
`hashBB` is `transientHash<[Bytes<32>, Bytes<32>]>` (inside
`generateHashKey`), `hashFF` is `transientHash<[Field, Field]>`
(operator-approval keys). -/
structure Env where
  hashBB : Bytes32 → Bytes32 → Fld
  hashFF : Fld → Fld → Fld

/-- The caller of a circuit: `pk` is what `ownPublicKey()` returns,
`localSecret` / `sharedSecret` are what the witnesses `getLocalSecret` /
`getSharedSecret` return for this caller. -/
structure Caller where
  pk : Bytes32
  localSecret : Bytes32
  sharedSecret : Bytes32

/-- A Compact ledger `Map` as an association list (first entry wins). -/
abbrev AMap (β : Type) := List (Nat × β)

namespace AMap

/-- Map lookup returning an `Option`. -/
def lookup? {β : Type} : AMap β → Nat → Option β
  | [], _ => none
  | (k', v) :: t, k => if k' = k then some v else lookup? t k

/-- `Map.member`. -/
def member {β : Type} (m : AMap β) (k : Nat) : Bool :=
  (lookup? m k).isSome

/-- `Map.remove` — deleting an absent key is a no-op. -/
def remove {β : Type} (m : AMap β) (k : Nat) : AMap β :=
  m.filter (fun p => p.1 ≠ k)

/-- `Map.insert` — inserts or replaces. -/
def insert {β : Type} (m : AMap β) (k : Nat) (v : β) : AMap β :=
  (k, v) :: remove m k

end AMap

/-- The four ledger fields of the `NftZk` module. -/
structure State where
  tokenOwner : AMap Fld
  tokenApprovals : AMap Fld
  ownedTokensCount : AMap Nat
  operatorApprovals : AMap Bool
deriving DecidableEq

/-- The ledger state of a freshly deployed contract: all maps empty. -/
def emptyState : State := ⟨[], [], [], []⟩

/-- Result of running a circuit body: success with a value and the new
state, or an abort carrying the error message and the state as mutated
up to the abort point (the substrate discards the latter, see `execSt`). -/
inductive MRes (α : Type) where
  | ok : α → State → MRes α
  | err : String → State → MRes α
deriving DecidableEq

/-- A circuit body: state-threading with aborting assertions. -/
def M (α : Type) : Type := State → MRes α

def M.pure {α : Type} (a : α) : M α := fun s => .ok a s

def M.bind {α β : Type} (x : M α) (f : α → M β) : M β := fun s =>
  match x s with
  | .ok a s' => f a s'
  | .err e s' => .err e s'

instance : Monad M where
  pure := M.pure
  bind := M.bind

/-- Compact `assert(cond, msg)`: aborts the call when `cond` fails. -/
def massert (p : Prop) [Decidable p] (msg : String) : M Unit := fun s =>
  if p then .ok () s else .err msg s

/-- Read the current ledger state. -/
def getS : M State := fun s => .ok s s

/-- Apply a ledger mutation. -/
def modifyS (f : State → State) : M Unit := fun s => .ok () (f s)

/-- `Map.lookup` as the runtime performs it: aborts on an absent key. -/
def mapLookupM (proj : State → AMap Fld) (k : Nat) : M Fld := fun s =>
  match AMap.lookup? (proj s) k with
  | some v => .ok v s
  | none => .err ("NotFound") s

/-- `ownedTokensCount.lookup(k).increment(n)`: aborts if the counter is
absent, else adds `n`. -/
def counterIncrement (k : Fld) (n : Nat) : M Unit := fun s =>
  match AMap.lookup? s.ownedTokensCount k with
  | some v => .ok () { s with ownedTokensCount := AMap.insert s.ownedTokensCount k (v + n) }
  | none => .err ("NotFound") s

/-- `ownedTokensCount.lookup(k).decrement(n)`: aborts if the counter is
absent or would go negative. -/
def counterDecrement (k : Fld) (n : Nat) : M Unit := fun s =>
  match AMap.lookup? s.ownedTokensCount k with
  | some v =>
      if v < n then .err ("Underflow") s
      else .ok () { s with ownedTokensCount := AMap.insert s.ownedTokensCount k (v - n) }
  | none => .err ("NotFound") s

/-- `export pure circuit generateHashKey(pK1, pK2) = transientHash<[Bytes<32>, Bytes<32>]>([pK1, pK2])`. -/
def generateHashKey (env : Env) (pK1 pK2 : Bytes32) : Fld :=
  env.hashBB pK1 pK2

/-- `export circuit tokenExists(tokenId) = tokenOwner.member(tokenId)`
(a read-only circuit, modelled as a pure function of the state). -/
def tokenExists (s : State) (tokenId : Nat) : Bool :=
  AMap.member s.tokenOwner tokenId

/-- `export circuit ownerOf(tokenId)`. -/
def ownerOf (tokenId : Nat) : M Fld := do
  massert (tokenId ≠ 0) ("Token ID cannot be empty.")
  let s ← getS
  massert (tokenExists s tokenId = true) ("Token does not exist.")
  mapLookupM (fun s => s.tokenOwner) tokenId

/-- `export circuit isApprovedForAll(ownerHashKey, operatorHashKey)`. -/
def isApprovedForAll (env : Env) (ownerHashKey operatorHashKey : Fld) : M Bool := do
  let approvalHashKey := env.hashFF ownerHashKey operatorHashKey
  let s ← getS
  match AMap.lookup? s.operatorApprovals approvalHashKey with
  | none => pure false
  | some b => pure b

/-- `export circuit balanceOf(owner)`. -/
def balanceOf (env : Env) (c : Caller) (owner : Bytes32) : M Nat := do
  massert (owner ≠ 0) ("Owner cannot be empty.")
  let s ← getS
  if owner = c.pk then
    let ownerHashKey := generateHashKey env c.pk c.localSecret
    match AMap.lookup? s.ownedTokensCount ownerHashKey with
    | some v => pure v
    | none => pure 0
  else
    let ownerHashKey := generateHashKey env owner c.sharedSecret
    match AMap.lookup? s.ownedTokensCount ownerHashKey with
    | some v => pure v
    | none => pure 0

/-- `export circuit getApproved(tokenId)`. -/
def getApproved (tokenId : Nat) : M Fld := do
  massert (tokenId ≠ 0) ("Token ID cannot be empty.")
  let s ← getS
  massert (tokenExists s tokenId = true) ("Token does not exist.")
  mapLookupM (fun s => s.tokenApprovals) tokenId

/-- `export circuit approve(to, tokenId)`. -/
def approve (env : Env) (c : Caller) (toPk : Bytes32) (tokenId : Nat) : M Unit := do
  massert (toPk ≠ 0) ("Approved account cannot be empty.")
  let toLocalHashKey := generateHashKey env toPk c.localSecret
  let ownerHashKey ← ownerOf tokenId
  massert (toLocalHashKey ≠ ownerHashKey) ("Cannot approve yourself.")
  let senderHashKey := generateHashKey env c.pk c.localSecret
  let opApproved ← isApprovedForAll env ownerHashKey senderHashKey
  massert (senderHashKey = ownerHashKey ∨ opApproved = true) ("Not authorized.")
  let toSharedHashKey := generateHashKey env toPk c.sharedSecret
  modifyS (fun s => { s with tokenApprovals := AMap.insert s.tokenApprovals tokenId toSharedHashKey })

/-- `export circuit setApprovalForAll(operator, approved)`. -/
def setApprovalForAll (env : Env) (c : Caller) (operator : Bytes32) (approved : Bool) : M Unit := do
  massert (operator ≠ 0) ("Operator cannot be empty.")
  massert (operator ≠ c.pk) ("Cannot set yourself as operator.")
  let senderHashKey := generateHashKey env c.pk c.localSecret
  let operatorHashKey := generateHashKey env operator c.sharedSecret
  let hashKey := env.hashFF senderHashKey operatorHashKey
  modifyS (fun s => { s with operatorApprovals := AMap.insert s.operatorApprovals hashKey approved })

/-- helper `circuit isApprovedOrOwner(spenderHashKey, tokenId)`. -/
def isApprovedOrOwner (env : Env) (spenderHashKey : Fld) (tokenId : Nat) : M Bool := do
  let ownerHashKey ← ownerOf tokenId
  if spenderHashKey = ownerHashKey then
    pure true
  else
    let s ← getS
    match AMap.lookup? s.tokenApprovals tokenId with
    | some a =>
        if spenderHashKey = a then pure true
        else isApprovedForAll env ownerHashKey spenderHashKey
    | none => isApprovedForAll env ownerHashKey spenderHashKey

/-- helper `circuit addTokenTo(toHashKey, tokenId)`. -/
def addTokenTo (toHashKey : Fld) (tokenId : Nat) : M Unit := do
  let s ← getS
  massert (tokenExists s tokenId = false) ("Token already exists.")
  massert (toHashKey ≠ 0) ("Recipient cannot be empty.")
  modifyS (fun s => { s with tokenOwner := AMap.insert s.tokenOwner tokenId toHashKey })
  let s1 ← getS
  if AMap.member s1.ownedTokensCount toHashKey = false then
    modifyS (fun s => { s with ownedTokensCount := AMap.insert s.ownedTokensCount toHashKey 0 })
  counterIncrement toHashKey 1

/-- helper `circuit removeTokenFrom(fromHashKey, tokenId)`. -/
def removeTokenFrom (fromHashKey : Fld) (tokenId : Nat) : M Unit := do
  massert (fromHashKey ≠ 0) ("Sender cannot be empty.")
  let o ← ownerOf tokenId
  massert (fromHashKey = o) ("Public key is not the owner.")
  counterDecrement fromHashKey 1
  modifyS (fun s => { s with tokenOwner := AMap.remove s.tokenOwner tokenId })

/-- helper `circuit clearApproval(ownerHashKey, tokenId)` — the source
calls `ownerOf` twice, once inside the assert and once in the guard. -/
def clearApproval (ownerHashKey : Fld) (tokenId : Nat) : M Unit := do
  let o1 ← ownerOf tokenId
  massert (ownerHashKey = o1) ("Public key is not the owner.")
  let o2 ← ownerOf tokenId
  if o2 ≠ 0 then
    modifyS (fun s => { s with tokenApprovals := AMap.remove s.tokenApprovals tokenId })

/-- `export circuit transferFrom(fromHashKey, to, tokenId)`. -/
def transferFrom (env : Env) (c : Caller) (fromHashKey : Fld) (toPk : Bytes32) (tokenId : Nat) : M Unit := do
  massert (tokenId ≠ 0) ("Token ID cannot be empty.")
  let senderHashKey := generateHashKey env c.pk c.localSecret
  let auth ← isApprovedOrOwner env senderHashKey tokenId
  massert (auth = true) ("Not authorized to transfer.")
  let toHashKey := generateHashKey env toPk c.sharedSecret
  clearApproval fromHashKey tokenId
  removeTokenFrom fromHashKey tokenId
  addTokenTo toHashKey tokenId

/-- `export circuit transfer(to, tokenId)`. -/
def transfer (env : Env) (c : Caller) (toPk : Bytes32) (tokenId : Nat) : M Unit := do
  massert (tokenId ≠ 0) ("Token ID cannot be empty.")
  let senderHashKey := generateHashKey env c.pk c.localSecret
  transferFrom env c senderHashKey toPk tokenId

/-- `export circuit mint(to, tokenId)` — note: no `tokenId != 0` check. -/
def mint (env : Env) (c : Caller) (toPk : Bytes32) (tokenId : Nat) : M Unit := do
  if toPk = c.pk then
    let senderHashKey := generateHashKey env c.pk c.localSecret
    addTokenTo senderHashKey tokenId
  else
    let toHashKey := generateHashKey env toPk c.sharedSecret
    addTokenTo toHashKey tokenId

/-- `export circuit burn(ownerHashKey, tokenId)` — the body never reads
the caller context or the witnesses, but like every circuit it executes
on behalf of some caller, so the caller is kept in the signature. -/
def burn (env : Env) (c : Caller) (ownerHashKey : Fld) (tokenId : Nat) : M Unit := do
  clearApproval ownerHashKey tokenId
  removeTokenFrom ownerHashKey tokenId

/-- The atomic commit-or-rollback runner of the execution substrate:
on success the mutated ledger is committed, on abort the ledger keeps
its pre-call state (spec §1/§5: the environment "evaluates assertions
and commits or aborts state atomically"). -/
def execSt (m : M Unit) (s : State) : State :=
  match m s with
  | .ok _ s' => s'
  | .err _ _ => s

/-- `true` exactly when the circuit call aborts on this state. -/
def errsB {α : Type} (m : M α) (s : State) : Bool :=
  match m s with
  | .ok _ _ => false
  | .err _ _ => true

/-! ### Derived notions used by the specification claims -/

/-- The balance counter stored for hash key `k`, read as 0 when absent. -/
def balanceCount (s : State) (k : Fld) : Nat :=
  (AMap.lookup? s.ownedTokensCount k).getD 0

/-- Number of entries of an ownership map whose value is `v`. -/
def countVal (m : AMap Fld) (v : Fld) : Nat :=
  (m.filter (fun p => p.2 = v)).length

/-- Number of `tokenOwner` entries whose value is `k`. -/
def ownedCount (s : State) (k : Fld) : Nat :=
  countVal s.tokenOwner k

/-- The hash key `mint(to, tokenId)` assigns ownership to: derived with
the local secret when the caller mints to its own identity, with the
shared secret otherwise (the two branches of `mint`). -/
def mintHashKey (env : Env) (c : Caller) (toPk : Bytes32) : Fld :=
  if toPk = c.pk then generateHashKey env c.pk c.localSecret
  else generateHashKey env toPk c.sharedSecret

/-- The hash key `balanceOf(owner)` queries: local secret when the
caller asks about itself, shared secret otherwise (the two branches of
`balanceOf`). -/
def queryHashKey (env : Env) (c : Caller) (owner : Bytes32) : Fld :=
  if owner = c.pk then generateHashKey env c.pk c.localSecret
  else generateHashKey env owner c.sharedSecret

/-- The value `isApprovedOrOwner(spenderHashKey, tokenId)` computes once
the owner lookup has returned `o`: spender is the owner, or the
token-specific approved hash key, or an approved operator of the owner. -/
def authOf (env : Env) (s : State) (spenderHashKey : Fld) (tokenId : Nat) (o : Fld) : Bool :=
  (spenderHashKey = o) ||
    (match AMap.lookup? s.tokenApprovals tokenId with
     | some a => spenderHashKey = a
     | none => false) ||
    (AMap.lookup? s.operatorApprovals (env.hashFF o spenderHashKey)).getD false

/-- One successful state-changing operation, by an arbitrary caller with
arbitrary witness values: the six operations `mint`, `approve`,
`setApprovalForAll`, `transfer`, `transferFrom`, `burn`. -/
inductive Step (env : Env) : State → State → Prop where
  | ofMint (c : Caller) (toPk : Bytes32) (tokenId : Nat) (s s' : State) :
      mint env c toPk tokenId s = .ok () s' → Step env s s'
  | ofApprove (c : Caller) (toPk : Bytes32) (tokenId : Nat) (s s' : State) :
      approve env c toPk tokenId s = .ok () s' → Step env s s'
  | ofSetApprovalForAll (c : Caller) (operator : Bytes32) (approved : Bool) (s s' : State) :
      setApprovalForAll env c operator approved s = .ok () s' → Step env s s'
  | ofTransfer (c : Caller) (toPk : Bytes32) (tokenId : Nat) (s s' : State) :
      transfer env c toPk tokenId s = .ok () s' → Step env s s'
  | ofTransferFrom (c : Caller) (fromHashKey : Fld) (toPk : Bytes32) (tokenId : Nat) (s s' : State) :
      transferFrom env c fromHashKey toPk tokenId s = .ok () s' → Step env s s'
  | ofBurn (c : Caller) (ownerHashKey : Fld) (tokenId : Nat) (s s' : State) :
      burn env c ownerHashKey tokenId s = .ok () s' → Step env s s'

/-- States reachable from the empty ledger by successful operations. -/
def Reachable (env : Env) (s : State) : Prop :=
  Relation.ReflTransGen (Step env) emptyState s

/-- Ledger well-formedness: ownership keys are duplicate-free, every
balance counter equals the number of tokens owned by that hash key, and
no token is owned by the default hash key 0. -/
def WF (s : State) : Prop :=
  ((s.tokenOwner.map Prod.fst).Nodup ∧ (∀ p ∈ s.tokenOwner, p.2 ≠ 0)) ∧
  (∀ k, balanceCount s k = ownedCount s k)

/-- A caller whose witness values are determined by its identity: its
own local secret `ls p` and the global shared secret `S` (the intended
deployment of the dual-secret scheme: the shared secret is common to all
participants, each local secret is private). -/
def honest (ls : Bytes32 → Bytes32) (S : Bytes32) (p : Bytes32) : Caller :=
  ⟨p, ls p, S⟩

/-- One successful operation performed by an honest caller. -/
inductive StepH (env : Env) (ls : Bytes32 → Bytes32) (S : Bytes32) : State → State → Prop where
  | ofMint (p : Bytes32) (toPk : Bytes32) (tokenId : Nat) (s s' : State) :
      mint env (honest ls S p) toPk tokenId s = .ok () s' → StepH env ls S s s'
  | ofApprove (p : Bytes32) (toPk : Bytes32) (tokenId : Nat) (s s' : State) :
      approve env (honest ls S p) toPk tokenId s = .ok () s' → StepH env ls S s s'
  | ofSetApprovalForAll (p : Bytes32) (operator : Bytes32) (approved : Bool) (s s' : State) :
      setApprovalForAll env (honest ls S p) operator approved s = .ok () s' → StepH env ls S s s'
  | ofTransfer (p : Bytes32) (toPk : Bytes32) (tokenId : Nat) (s s' : State) :
      transfer env (honest ls S p) toPk tokenId s = .ok () s' → StepH env ls S s s'
  | ofTransferFrom (p : Bytes32) (fromHashKey : Fld) (toPk : Bytes32) (tokenId : Nat) (s s' : State) :
      transferFrom env (honest ls S p) fromHashKey toPk tokenId s = .ok () s' → StepH env ls S s s'
  | ofBurn (p : Bytes32) (ownerHashKey : Fld) (tokenId : Nat) (s s' : State) :
      burn env (honest ls S p) ownerHashKey tokenId s = .ok () s' → StepH env ls S s s'

/-- States reachable from the empty ledger by honest callers. -/
def ReachableH (env : Env) (ls : Bytes32 → Bytes32) (S : Bytes32) (s : State) : Prop :=
  Relation.ReflTransGen (StepH env ls S) emptyState s

/-- Shape invariant of operator approvals under honest callers: every
entry set to `true` was written by `setApprovalForAll`, so its key pairs
an owner hash (local secret) with an operator hash (shared secret) of a
different identity. -/
def OpInv (env : Env) (ls : Bytes32 → Bytes32) (S : Bytes32) (s : State) : Prop :=
  ∀ k, AMap.lookup? s.operatorApprovals k = some true →
    ∃ q r, r ≠ q ∧ k = env.hashFF (env.hashBB q (ls q)) (env.hashBB r S)

/-- A concrete hash environment used to exercise the theorems: both
`transientHash` instantiations modelled by the (injective) Cantor
pairing function. -/
def envPair : Env := ⟨Nat.pair, Nat.pair⟩

/-- Demo state: token 1 owned by hash key `Nat.pair 1 7`, counter 1. -/
def sOwned : State := ⟨[(1, Nat.pair 1 7)], [], [(Nat.pair 1 7, 1)], []⟩

/-- Demo state: as `sOwned` plus an outstanding approval for token 1. -/
def sApproved : State := ⟨[(1, Nat.pair 1 7)], [(1, 99)], [(Nat.pair 1 7, 1)], []⟩

/-- Demo state: token 0 owned by hash key `Nat.pair 1 2`, counter 1
(the result of `mint` at token id 0 from the empty ledger). -/
def sZero : State := ⟨[(0, Nat.pair 1 2)], [], [(Nat.pair 1 2, 1)], []⟩

/-- Demo state: `sZero` after additionally minting token 1 to the same
hash key. -/
def sZeroPlus : State :=
  ⟨[(1, Nat.pair 1 2), (0, Nat.pair 1 2)], [], [(Nat.pair 1 2, 2)], []⟩

/-- Demo state: the result of transferring token 1 of `sApproved` to the
identity 2 under shared secret 3. -/
def sTransferred : State :=
  ⟨[(1, Nat.pair 2 3)], [], [(Nat.pair 2 3, 1), (Nat.pair 1 7, 0)], []⟩

/-! ### Unfolding lemmas for the circuit monad -/

@[simp] theorem M.bind_apply {α β : Type} (x : M α) (f : α → M β) (s : State) :
    (x >>= f) s = match x s with
      | .ok a s' => f a s'
      | .err e s' => .err e s' := rfl

@[simp] theorem M.pure_apply {α : Type} (a : α) (s : State) :
    (Pure.pure a : M α) s = .ok a s := rfl

@[simp] theorem massert_apply (p : Prop) [Decidable p] (msg : String) (s : State) :
    massert p msg s = if p then .ok () s else .err msg s := rfl

@[simp] theorem getS_apply (s : State) : getS s = .ok s s := rfl

@[simp] theorem modifyS_apply (f : State → State) (s : State) :
    modifyS f s = .ok () (f s) := rfl

/-- `ownerOf` fully evaluated: reject id 0, then look the owner up. -/
theorem ownerOf_run (t : Nat) (s : State) :
    ownerOf t s =
      if t = 0 then .err ("Token ID cannot be empty.") s
      else
        match AMap.lookup? s.tokenOwner t with
        | some o => .ok o s
        | none => .err ("Token does not exist.") s := by
  by_cases h : t = 0 <;>
    cases hl : AMap.lookup? s.tokenOwner t <;>
      simp [ownerOf, mapLookupM, tokenExists, AMap.member, h, hl]

/-! ### Association-map lemmas -/

namespace AMap

@[simp] theorem lookup?_nil {β : Type} (k : Nat) : lookup? ([] : AMap β) k = none := rfl

@[simp] theorem lookup?_cons {β : Type} (k' : Nat) (v : β) (m : AMap β) (k : Nat) :
    lookup? ((k', v) :: m) k = if k' = k then some v else lookup? m k := rfl

theorem remove_cons_self {β : Type} (a : Nat) (b : β) (t : AMap β) :
    remove ((a, b) :: t) a = remove t a := by
  simp [remove, List.filter_cons]

theorem remove_cons_ne {β : Type} {a k : Nat} (b : β) (t : AMap β) (hak : a ≠ k) :
    remove ((a, b) :: t) k = (a, b) :: remove t k := by
  simp [remove, List.filter_cons, hak]

theorem lookup?_remove {β : Type} (m : AMap β) (k k' : Nat) :
    lookup? (remove m k) k' = if k' = k then none else lookup? m k' := by
  induction m with
  | nil => simp [remove]
  | cons p t ih =>
    obtain ⟨a, b⟩ := p
    by_cases hak : a = k
    · subst hak
      rw [remove_cons_self, ih, lookup?_cons]
      by_cases hak' : a = k'
      · subst hak'
        simp
      · simp [hak']
    · rw [remove_cons_ne b t hak, lookup?_cons, ih, lookup?_cons]
      by_cases hak' : a = k'
      · subst hak'
        simp [hak]
      · simp [hak']

theorem lookup?_insert {β : Type} (m : AMap β) (k : Nat) (v : β) (k' : Nat) :
    lookup? (insert m k v) k' = if k = k' then some v else lookup? m k' := by
  rw [insert, lookup?_cons, lookup?_remove]
  by_cases h : k = k'
  · simp [h]
  · simp [h, Ne.symm h]

theorem remove_eq_self {β : Type} {m : AMap β} {k : Nat} (h : lookup? m k = none) :
    remove m k = m := by
  induction m with
  | nil => rfl
  | cons p t ih =>
    obtain ⟨a, b⟩ := p
    by_cases hak : a = k
    · subst hak
      simp at h
    · simp only [lookup?_cons, if_neg hak] at h
      rw [remove_cons_ne b t hak, ih h]

theorem mem_of_lookup?_some {β : Type} {m : AMap β} {k : Nat} {v : β}
    (h : lookup? m k = some v) : (k, v) ∈ m := by
  induction m with
  | nil => simp at h
  | cons p t ih =>
    obtain ⟨a, b⟩ := p
    by_cases hak : a = k
    · subst hak
      rw [lookup?_cons, if_pos rfl] at h
      obtain rfl := Option.some.inj h
      exact List.mem_cons_self _ _
    · simp only [lookup?_cons, if_neg hak] at h
      exact List.mem_cons_of_mem _ (ih h)

theorem lookup?_eq_none_of_not_memKey {β : Type} {m : AMap β} {k : Nat}
    (h : k ∉ m.map Prod.fst) : lookup? m k = none := by
  induction m with
  | nil => rfl
  | cons p t ih =>
    obtain ⟨a, b⟩ := p
    simp only [List.map_cons, List.mem_cons] at h
    push_neg at h
    simp [Ne.symm h.1, ih h.2]

theorem nodupKeys_remove {β : Type} {m : AMap β} (k : Nat)
    (h : (m.map Prod.fst).Nodup) : ((remove m k).map Prod.fst).Nodup :=
  h.sublist ((List.filter_sublist m).map Prod.fst)

theorem not_memKey_remove {β : Type} (m : AMap β) (k : Nat) :
    k ∉ (remove m k).map Prod.fst := by
  simp only [remove, List.mem_map]
  rintro ⟨⟨a, b⟩, hmem, rfl⟩
  simp [List.mem_filter] at hmem

theorem nodupKeys_insert {β : Type} {m : AMap β} (k : Nat) (v : β)
    (h : (m.map Prod.fst).Nodup) : ((insert m k v).map Prod.fst).Nodup := by
  simp only [insert, List.map_cons, List.nodup_cons]
  exact ⟨not_memKey_remove m k, nodupKeys_remove k h⟩

end AMap

/-! ### Counting-ownership lemmas -/

theorem countVal_nil (v : Fld) : countVal [] v = 0 := rfl

theorem countVal_cons (a : Nat) (b : Fld) (t : AMap Fld) (v : Fld) :
    countVal ((a, b) :: t) v = countVal t v + (if b = v then 1 else 0) := by
  by_cases h : b = v <;> simp [countVal, List.filter_cons, h]

theorem countVal_pos {m : AMap Fld} {k : Nat} {v : Fld} (h : (k, v) ∈ m) :
    0 < countVal m v := by
  induction m with
  | nil => simp at h
  | cons p t ih =>
    obtain ⟨a, b⟩ := p
    rw [countVal_cons]
    rcases List.mem_cons.mp h with h1 | h2
    · obtain ⟨rfl, rfl⟩ := Prod.mk.injEq .. ▸ h1
      simp
    · have := ih h2
      omega

theorem countVal_remove {m : AMap Fld} {k : Nat} {w : Fld}
    (hnd : (m.map Prod.fst).Nodup) (h : AMap.lookup? m k = some w) (v : Fld) :
    countVal m v = countVal (AMap.remove m k) v + (if w = v then 1 else 0) := by
  induction m with
  | nil => simp at h
  | cons p t ih =>
    obtain ⟨a, b⟩ := p
    simp only [List.map_cons, List.nodup_cons] at hnd
    by_cases hak : a = k
    · subst hak
      rw [AMap.lookup?_cons, if_pos rfl] at h
      obtain rfl := Option.some.inj h
      have ht : AMap.remove t a = t :=
        AMap.remove_eq_self (AMap.lookup?_eq_none_of_not_memKey hnd.1)
      rw [AMap.remove_cons_self, ht, countVal_cons]
    · simp only [AMap.lookup?_cons, if_neg hak] at h
      rw [AMap.remove_cons_ne b t hak, countVal_cons, countVal_cons, ih hnd.2 h]
      ring

/-- Composition inversion: a bind succeeds exactly when both parts do. -/
theorem M.bind_ok_iff {α β : Type} {x : M α} {f : α → M β} {s : State} {b : β} {s2 : State} :
    (x >>= f) s = .ok b s2 ↔ ∃ a s1, x s = .ok a s1 ∧ f a s1 = .ok b s2 := by
  constructor
  · intro h
    cases hx : x s with
    | ok a s1 => exact ⟨a, s1, rfl, by simpa [hx] using h⟩
    | err e s1 => simp [hx] at h
  · rintro ⟨a, s1, hx, hf⟩
    simp [hx, hf]

/-- `isApprovedForAll` is a read-only query of the operator map. -/
theorem isApprovedForAll_run (env : Env) (a b : Fld) (s : State) :
    isApprovedForAll env a b s =
      .ok ((AMap.lookup? s.operatorApprovals (env.hashFF a b)).getD false) s := by
  cases h : AMap.lookup? s.operatorApprovals (env.hashFF a b) <;>
    simp [isApprovedForAll, h]

/-- `getApproved` fully evaluated. -/
theorem getApproved_run (t : Nat) (s : State) :
    getApproved t s =
      if t = 0 then .err ("Token ID cannot be empty.") s
      else if AMap.lookup? s.tokenOwner t = none then .err ("Token does not exist.") s
      else
        match AMap.lookup? s.tokenApprovals t with
        | some a => .ok a s
        | none => .err ("NotFound") s := by
  by_cases h : t = 0 <;>
    cases hl : AMap.lookup? s.tokenOwner t <;>
      cases ha : AMap.lookup? s.tokenApprovals t <;>
        simp [getApproved, mapLookupM, tokenExists, AMap.member, h, hl, ha]

/-- `balanceOf` fully evaluated: rejects the default identity, else
reports the balance counter of the hash key it derives. -/
theorem balanceOf_run (env : Env) (c : Caller) (owner : Bytes32) (s : State) :
    balanceOf env c owner s =
      if owner = 0 then .err ("Owner cannot be empty.") s
      else .ok (balanceCount s (queryHashKey env c owner)) s := by
  by_cases h : owner = 0
  · simp [balanceOf, h]
  · by_cases hc : owner = c.pk
    · subst hc
      cases hl : AMap.lookup? s.ownedTokensCount (generateHashKey env c.pk c.localSecret) <;>
        simp [balanceOf, h, queryHashKey, balanceCount, hl]
    · cases hl : AMap.lookup? s.ownedTokensCount (generateHashKey env owner c.sharedSecret) <;>
        simp [balanceOf, h, hc, queryHashKey, balanceCount, hl]

/-- `setApprovalForAll` fully evaluated. -/
theorem setApprovalForAll_run (env : Env) (c : Caller) (operator : Bytes32) (approved : Bool) (s : State) :
    setApprovalForAll env c operator approved s =
      if operator = 0 then .err ("Operator cannot be empty.") s
      else if operator = c.pk then .err ("Cannot set yourself as operator.") s
      else .ok () { s with operatorApprovals := AMap.insert s.operatorApprovals (env.hashFF (generateHashKey env c.pk c.localSecret) (generateHashKey env operator c.sharedSecret)) approved } := by
  by_cases h0 : operator = 0
  · simp [setApprovalForAll, h0]
  · by_cases hp : operator = c.pk
    · subst hp
      simp [setApprovalForAll, h0]
    · simp [setApprovalForAll, h0, hp]

/-- `isApprovedOrOwner` is a read-only query: it aborts where `ownerOf`
does and otherwise reports the three-way authorization check. -/
theorem isApprovedOrOwner_run (env : Env) (sp : Fld) (t : Nat) (s : State) :
    isApprovedOrOwner env sp t s =
      if t = 0 then .err ("Token ID cannot be empty.") s
      else
        match AMap.lookup? s.tokenOwner t with
        | none => .err ("Token does not exist.") s
        | some o => .ok (authOf env s sp t o) s := by
  rw [isApprovedOrOwner]
  by_cases h : t = 0
  · simp [ownerOf_run, h]
  · cases hl : AMap.lookup? s.tokenOwner t with
    | none => simp [ownerOf_run, h, hl]
    | some o =>
      by_cases hsp : sp = o
      · simp [ownerOf_run, h, hl, hsp, authOf]
      · cases ha : AMap.lookup? s.tokenApprovals t with
        | none =>
          simp [ownerOf_run, h, hl, hsp, authOf, ha, isApprovedForAll_run]
        | some a =>
          by_cases hspa : sp = a
          · subst hspa
            simp [ownerOf_run, h, hl, hsp, authOf, ha]
          · simp [ownerOf_run, h, hl, hsp, authOf, ha, hspa, isApprovedForAll_run]

/-- Idempotence of key removal. -/
theorem AMap.remove_remove_self {β : Type} (m : AMap β) (k : Nat) :
    AMap.remove (AMap.remove m k) k = AMap.remove m k :=
  AMap.remove_eq_self (by simp [AMap.lookup?_remove])

/-- `addTokenTo` fully evaluated: its two assertions fire before any
mutation; after them it always succeeds, inserting the owner entry and
raising the (lazily created) balance counter by one. -/
theorem addTokenTo_run (hk : Fld) (t : Nat) (s : State) :
    addTokenTo hk t s =
      if AMap.lookup? s.tokenOwner t ≠ none then .err ("Token already exists.") s
      else if hk = 0 then .err ("Recipient cannot be empty.") s
      else .ok () { s with
        tokenOwner := AMap.insert s.tokenOwner t hk,
        ownedTokensCount := AMap.insert s.ownedTokensCount hk (balanceCount s hk + 1) } := by
  by_cases h1 : AMap.lookup? s.tokenOwner t = none
  · by_cases h2 : hk = 0
    · simp [addTokenTo, tokenExists, AMap.member, h1, h2]
    · cases hc : AMap.lookup? s.ownedTokensCount hk with
      | none =>
        simp [addTokenTo, tokenExists, AMap.member, h1, h2, counterIncrement,
          AMap.lookup?_insert, hc, balanceCount, AMap.insert, AMap.remove_cons_self,
          AMap.remove_remove_self]
      | some v =>
        simp [addTokenTo, tokenExists, AMap.member, h1, h2, counterIncrement,
          hc, balanceCount]
  · simp [addTokenTo, tokenExists, AMap.member, h1]

/-- `removeTokenFrom` fully evaluated. -/
theorem removeTokenFrom_run (hk : Fld) (t : Nat) (s : State) :
    removeTokenFrom hk t s =
      if hk = 0 then .err ("Sender cannot be empty.") s
      else if t = 0 then .err ("Token ID cannot be empty.") s
      else
        match AMap.lookup? s.tokenOwner t with
        | none => .err ("Token does not exist.") s
        | some o =>
          if hk ≠ o then .err ("Public key is not the owner.") s
          else
            match AMap.lookup? s.ownedTokensCount hk with
            | none => .err ("NotFound") s
            | some v =>
              if v < 1 then .err ("Underflow") s
              else .ok () { s with
                tokenOwner := AMap.remove s.tokenOwner t,
                ownedTokensCount := AMap.insert s.ownedTokensCount hk (v - 1) } := by
  by_cases h0 : hk = 0
  · simp [removeTokenFrom, h0]
  · by_cases ht : t = 0
    · simp [removeTokenFrom, ownerOf_run, h0, ht]
    · cases hl : AMap.lookup? s.tokenOwner t with
      | none => simp [removeTokenFrom, ownerOf_run, h0, ht, hl]
      | some o =>
        by_cases ho : hk = o
        · subst ho
          cases hc : AMap.lookup? s.ownedTokensCount hk with
          | none => simp [removeTokenFrom, ownerOf_run, counterDecrement, h0, ht, hl, hc]
          | some v =>
            by_cases hv : v = 0
            · simp [removeTokenFrom, ownerOf_run, counterDecrement, h0, ht, hl, hc,
                hv, Nat.lt_one_iff]
            · simp [removeTokenFrom, ownerOf_run, counterDecrement, h0, ht, hl, hc,
                hv, Nat.lt_one_iff]
        · simp [removeTokenFrom, ownerOf_run, h0, ht, hl, ho]

/-- `clearApproval` fully evaluated. -/
theorem clearApproval_run (hk : Fld) (t : Nat) (s : State) :
    clearApproval hk t s =
      if t = 0 then .err ("Token ID cannot be empty.") s
      else
        match AMap.lookup? s.tokenOwner t with
        | none => .err ("Token does not exist.") s
        | some o =>
          if hk ≠ o then .err ("Public key is not the owner.") s
          else if o ≠ 0 then
            .ok () { s with tokenApprovals := AMap.remove s.tokenApprovals t }
          else .ok () s := by
  by_cases ht : t = 0
  · simp [clearApproval, ownerOf_run, ht]
  · cases hl : AMap.lookup? s.tokenOwner t with
    | none => simp [clearApproval, ownerOf_run, ht, hl]
    | some o =>
      by_cases ho : hk = o
      · by_cases hz : o = 0 <;>
          simp [clearApproval, ownerOf_run, ht, hl, ho, hz]
      · simp [clearApproval, ownerOf_run, ht, hl, ho]

/-- `mint` delegates to `addTokenTo` at the branch-selected hash key. -/
theorem mint_eq_addTokenTo (env : Env) (c : Caller) (toPk : Bytes32) (tokenId : Nat) :
    mint env c toPk tokenId = addTokenTo (mintHashKey env c toPk) tokenId := by
  unfold mint mintHashKey
  by_cases h : toPk = c.pk <;> simp [h]

/-! ### Success inversions and preservation of well-formedness -/

theorem massert_ok {p : Prop} [Decidable p] {msg : String} {s : State} {a : Unit} {s1 : State}
    (h : massert p msg s = .ok a s1) : p ∧ s1 = s := by
  by_cases hp : p <;> simp [massert, hp] at h
  exact ⟨hp, h.symm⟩

theorem isApprovedOrOwner_ok {env : Env} {sp : Fld} {t : Nat} {b : Bool} {s s1 : State}
    (h : isApprovedOrOwner env sp t s = .ok b s1) : s1 = s := by
  rw [isApprovedOrOwner_run] at h
  by_cases ht : t = 0
  · simp [ht] at h
  · cases hl : AMap.lookup? s.tokenOwner t <;> simp [ht, hl] at h
    exact h.2.symm

theorem clearApproval_ok {hk : Fld} {t : Nat} {s s1 : State}
    (h : clearApproval hk t s = .ok () s1) :
    s1.tokenOwner = s.tokenOwner ∧ s1.ownedTokensCount = s.ownedTokensCount ∧
      s1.operatorApprovals = s.operatorApprovals ∧
      (s1 = s ∨ s1 = { s with tokenApprovals := AMap.remove s.tokenApprovals t }) := by
  rw [clearApproval_run] at h
  by_cases ht : t = 0
  · simp [ht] at h
  · cases hl : AMap.lookup? s.tokenOwner t with
    | none => simp [ht, hl] at h
    | some o =>
      by_cases ho : hk = o
      · by_cases hz : o = 0 <;> simp [ht, hl, ho, hz] at h <;> subst h <;> simp
      · simp [ht, hl, ho] at h

theorem wf_of_maps_eq {s s' : State} (h1 : s'.tokenOwner = s.tokenOwner)
    (h2 : s'.ownedTokensCount = s.ownedTokensCount) (h : WF s) : WF s' := by
  unfold WF balanceCount ownedCount at *
  rw [h1, h2]
  exact h

theorem wf_emptyState : WF emptyState := by
  refine ⟨⟨by simp [emptyState], by simp [emptyState]⟩, ?_⟩
  intro k
  simp [balanceCount, ownedCount, emptyState, countVal]

theorem mem_of_mem_remove {β : Type} {m : AMap β} {k : Nat} {p : Nat × β}
    (h : p ∈ AMap.remove m k) : p ∈ m :=
  List.mem_of_mem_filter h

theorem MRes.ok_inj {α : Type} {a b : α} {s1 s2 : State}
    (h : MRes.ok a s1 = MRes.ok b s2) : a = b ∧ s1 = s2 := by
  cases h
  exact ⟨rfl, rfl⟩

theorem getD_lookup?_insert (m : AMap Nat) (k : Nat) (v : Nat) (k' : Nat) :
    (AMap.lookup? (AMap.insert m k v) k').getD 0 =
      if k = k' then v else (AMap.lookup? m k').getD 0 := by
  rw [AMap.lookup?_insert]
  by_cases h : k = k' <;> simp [h]

theorem countVal_insert_of_none {m : AMap Fld} {t : Nat} (hk : Fld) (v : Fld)
    (h : AMap.lookup? m t = none) :
    countVal (AMap.insert m t hk) v = countVal m v + (if hk = v then 1 else 0) := by
  rw [AMap.insert, AMap.remove_eq_self h, countVal_cons]

theorem addTokenTo_ok_iff {hk : Fld} {t : Nat} {s s' : State} :
    addTokenTo hk t s = .ok () s' ↔
      AMap.lookup? s.tokenOwner t = none ∧ hk ≠ 0 ∧
        s' = { s with tokenOwner := AMap.insert s.tokenOwner t hk,
                      ownedTokensCount := AMap.insert s.ownedTokensCount hk (balanceCount s hk + 1) } := by
  rw [addTokenTo_run]
  by_cases h1 : AMap.lookup? s.tokenOwner t = none
  · rw [if_neg (not_not_intro h1)]
    by_cases h2 : hk = 0
    · simp [h1, h2]
    · rw [if_neg h2]
      constructor
      · intro h
        exact ⟨h1, h2, (MRes.ok_inj h).2.symm⟩
      · rintro ⟨-, -, rfl⟩
        rfl
  · rw [if_pos h1]
    simp [h1]

theorem removeTokenFrom_ok_iff {hk : Fld} {t : Nat} {s s' : State} :
    removeTokenFrom hk t s = .ok () s' ↔
      hk ≠ 0 ∧ t ≠ 0 ∧ AMap.lookup? s.tokenOwner t = some hk ∧
        1 ≤ balanceCount s hk ∧
        s' = { s with tokenOwner := AMap.remove s.tokenOwner t,
                      ownedTokensCount := AMap.insert s.ownedTokensCount hk (balanceCount s hk - 1) } := by
  rw [removeTokenFrom_run]
  by_cases h0 : hk = 0
  · simp [h0]
  · rw [if_neg h0]
    by_cases ht : t = 0
    · simp [ht]
    · rw [if_neg ht]
      cases hl : AMap.lookup? s.tokenOwner t with
      | none => simp [hl]
      | some o =>
        by_cases ho : hk = o
        · subst ho
          cases hc : AMap.lookup? s.ownedTokensCount hk with
          | none => simp [hl, hc, balanceCount]
          | some v =>
            by_cases hv : v < 1
            · obtain rfl := Nat.lt_one_iff.mp hv
              simp [hl, hc, balanceCount]
            · simp only [hl, hc, balanceCount, Option.getD_some, ne_eq, not_true_eq_false,
                if_false, if_neg hv]
              constructor
              · intro h
                exact ⟨h0, ht, trivial, by omega, (MRes.ok_inj h).2.symm⟩
              · rintro ⟨-, -, -, -, rfl⟩
                rfl
        · simp [hl, ho, Ne.symm ho]

theorem wf_addTokenTo {hk : Fld} {t : Nat} {s s' : State}
    (h : addTokenTo hk t s = .ok () s') (hwf : WF s) : WF s' := by
  obtain ⟨h1, h2, rfl⟩ := addTokenTo_ok_iff.mp h
  obtain ⟨⟨hnd, hnz⟩, hcnt⟩ := hwf
  refine ⟨⟨AMap.nodupKeys_insert t hk hnd, ?_⟩, ?_⟩
  · intro p hp
    rcases List.mem_cons.mp hp with h' | h'
    · subst h'
      exact h2
    · exact hnz p (mem_of_mem_remove h')
  · intro k
    show (AMap.lookup? (AMap.insert s.ownedTokensCount hk (balanceCount s hk + 1)) k).getD 0
        = countVal (AMap.insert s.tokenOwner t hk) k
    rw [getD_lookup?_insert, countVal_insert_of_none hk k h1]
    have hck := hcnt k
    have hch := hcnt hk
    simp only [balanceCount, ownedCount] at hck hch ⊢
    by_cases hk' : hk = k
    · subst hk'
      rw [if_pos rfl, if_pos rfl]
      omega
    · rw [if_neg hk', if_neg hk']
      omega

theorem wf_removeTokenFrom {hk : Fld} {t : Nat} {s s' : State}
    (h : removeTokenFrom hk t s = .ok () s') (hwf : WF s) : WF s' := by
  obtain ⟨h0, ht, hl, hv, rfl⟩ := removeTokenFrom_ok_iff.mp h
  obtain ⟨⟨hnd, hnz⟩, hcnt⟩ := hwf
  refine ⟨⟨AMap.nodupKeys_remove t hnd, ?_⟩, ?_⟩
  · intro p hp
    exact hnz p (mem_of_mem_remove hp)
  · intro k
    show (AMap.lookup? (AMap.insert s.ownedTokensCount hk (balanceCount s hk - 1)) k).getD 0
        = countVal (AMap.remove s.tokenOwner t) k
    rw [getD_lookup?_insert]
    have hcv := countVal_remove hnd hl k
    have hck := hcnt k
    have hch := hcnt hk
    simp only [balanceCount, ownedCount] at hck hch hv ⊢
    by_cases hk' : hk = k
    · subst hk'
      rw [if_pos rfl]
      rw [if_pos rfl] at hcv
      omega
    · rw [if_neg hk']
      rw [if_neg hk'] at hcv
      omega

theorem M.bind_ok_eval {α β : Type} {x : M α} {a : α} {s s1 : State} (f : α → M β)
    (hx : x s = .ok a s1) : (x >>= f) s = f a s1 := by
  rw [M.bind_apply, hx]

theorem M.bind_err_eval {α β : Type} {x : M α} {e : String} {s s1 : State} (f : α → M β)
    (hx : x s = .err e s1) : (x >>= f) s = .err e s1 := by
  rw [M.bind_apply, hx]

theorem transferFrom_ok_iff {env : Env} {c : Caller} {fr : Fld} {toPk : Bytes32} {t : Nat}
    {s s' : State} :
    transferFrom env c fr toPk t s = .ok () s' ↔
      ∃ o, t ≠ 0 ∧ AMap.lookup? s.tokenOwner t = some o ∧
        authOf env s (generateHashKey env c.pk c.localSecret) t o = true ∧
        ∃ s4 s5, clearApproval fr t s = .ok () s4 ∧
          removeTokenFrom fr t s4 = .ok () s5 ∧
          addTokenTo (generateHashKey env toPk c.sharedSecret) t s5 = .ok () s' := by
  by_cases ht : t = 0
  · rw [transferFrom]
    simp [ht, massert]
  · have hm : (massert (t ≠ 0) ("Token ID cannot be empty.") : M Unit) s = .ok () s := by
      simp [massert, ht]
    rw [transferFrom, M.bind_ok_eval _ hm]
    try dsimp only
    cases hl : AMap.lookup? s.tokenOwner t with
    | none =>
      have hio : isApprovedOrOwner env (generateHashKey env c.pk c.localSecret) t s
          = .err ("Token does not exist.") s := by
        rw [isApprovedOrOwner_run, if_neg ht, hl]
      rw [M.bind_err_eval _ hio]
      simp
    | some o =>
      have hio : isApprovedOrOwner env (generateHashKey env c.pk c.localSecret) t s
          = .ok (authOf env s (generateHashKey env c.pk c.localSecret) t o) s := by
        rw [isApprovedOrOwner_run, if_neg ht, hl]
      rw [M.bind_ok_eval _ hio]
      try dsimp only
      by_cases hab : authOf env s (generateHashKey env c.pk c.localSecret) t o = true
      · have hm2 : (massert (authOf env s (generateHashKey env c.pk c.localSecret) t o = true)
            ("Not authorized to transfer.") : M Unit) s = .ok () s := by
          simp [massert, hab]
        rw [M.bind_ok_eval _ hm2]
        try dsimp only
        constructor
        · intro h
          obtain ⟨a4, s4, h4, h⟩ := M.bind_ok_iff.mp h
          obtain ⟨a5, s5, h5, h⟩ := M.bind_ok_iff.mp h
          exact ⟨o, ht, rfl, hab, s4, s5, h4, h5, h⟩
        · rintro ⟨o', -, ho', -, s4, s5, h4, h5, h6⟩
          exact M.bind_ok_iff.mpr ⟨(), s4, h4, M.bind_ok_iff.mpr ⟨(), s5, h5, h6⟩⟩
      · have hm2 : (massert (authOf env s (generateHashKey env c.pk c.localSecret) t o = true)
            ("Not authorized to transfer.") : M Unit) s
            = .err ("Not authorized to transfer.") s := by
          simp [massert, hab]
        rw [M.bind_err_eval _ hm2]
        constructor
        · intro h
          cases h
        · rintro ⟨o', -, ho', hab', -⟩
          obtain rfl := Option.some.inj ho'
          exact absurd hab' hab

theorem wf_transferFrom {env : Env} {c : Caller} {fr : Fld} {toPk : Bytes32} {t : Nat}
    {s s' : State} (h : transferFrom env c fr toPk t s = .ok () s') (hwf : WF s) : WF s' := by
  obtain ⟨o, -, -, -, s4, s5, h4, h5, h6⟩ := transferFrom_ok_iff.mp h
  obtain ⟨hc1, hc2, -, -⟩ := clearApproval_ok h4
  exact wf_addTokenTo h6 (wf_removeTokenFrom h5 (wf_of_maps_eq hc1 hc2 hwf))

theorem transfer_ok_iff {env : Env} {c : Caller} {toPk : Bytes32} {t : Nat} {s s' : State} :
    transfer env c toPk t s = .ok () s' ↔
      t ≠ 0 ∧ transferFrom env c (generateHashKey env c.pk c.localSecret) toPk t s = .ok () s' := by
  by_cases ht : t = 0
  · rw [transfer]
    simp [ht, massert]
  · have hm : (massert (t ≠ 0) ("Token ID cannot be empty.") : M Unit) s = .ok () s := by
      simp [massert, ht]
    rw [transfer, M.bind_ok_eval _ hm]
    try dsimp only
    simp [ht]

theorem burn_ok_iff {env : Env} {c : Caller} {hk : Fld} {t : Nat} {s s' : State} :
    burn env c hk t s = .ok () s' ↔
      ∃ s4, clearApproval hk t s = .ok () s4 ∧ removeTokenFrom hk t s4 = .ok () s' := by
  rw [burn]
  constructor
  · intro h
    obtain ⟨a4, s4, h4, h⟩ := M.bind_ok_iff.mp h
    exact ⟨s4, h4, h⟩
  · rintro ⟨s4, h4, h5⟩
    exact M.bind_ok_iff.mpr ⟨(), s4, h4, h5⟩

theorem wf_burn {env : Env} {c : Caller} {hk : Fld} {t : Nat} {s s' : State}
    (h : burn env c hk t s = .ok () s') (hwf : WF s) : WF s' := by
  obtain ⟨s4, h4, h5⟩ := burn_ok_iff.mp h
  obtain ⟨hc1, hc2, -, -⟩ := clearApproval_ok h4
  exact wf_removeTokenFrom h5 (wf_of_maps_eq hc1 hc2 hwf)

theorem setApprovalForAll_ok_iff {env : Env} {c : Caller} {operator : Bytes32} {approved : Bool}
    {s s' : State} :
    setApprovalForAll env c operator approved s = .ok () s' ↔
      operator ≠ 0 ∧ operator ≠ c.pk ∧
        s' = { s with operatorApprovals := AMap.insert s.operatorApprovals (env.hashFF (generateHashKey env c.pk c.localSecret) (generateHashKey env operator c.sharedSecret)) approved } := by
  rw [setApprovalForAll_run]
  by_cases h0 : operator = 0
  · simp [h0]
  · rw [if_neg h0]
    by_cases hp : operator = c.pk
    · simp [h0, hp]
    · rw [if_neg hp]
      constructor
      · intro h
        exact ⟨h0, hp, (MRes.ok_inj h).2.symm⟩
      · rintro ⟨-, -, rfl⟩
        rfl

theorem approve_ok_iff {env : Env} {c : Caller} {toPk : Bytes32} {t : Nat} {s s' : State} :
    approve env c toPk t s = .ok () s' ↔
      toPk ≠ 0 ∧ t ≠ 0 ∧
        ∃ o, AMap.lookup? s.tokenOwner t = some o ∧
          generateHashKey env toPk c.localSecret ≠ o ∧
          (generateHashKey env c.pk c.localSecret = o ∨
            (AMap.lookup? s.operatorApprovals
              (env.hashFF o (generateHashKey env c.pk c.localSecret))).getD false = true) ∧
          s' = { s with tokenApprovals := AMap.insert s.tokenApprovals t (generateHashKey env toPk c.sharedSecret) } := by
  by_cases h0 : toPk = 0
  · rw [approve]
    simp [h0, massert]
  · have hm : (massert (toPk ≠ 0) ("Approved account cannot be empty.") : M Unit) s = .ok () s := by
      simp [massert, h0]
    rw [approve, M.bind_ok_eval _ hm]
    try dsimp only
    by_cases ht : t = 0
    · have ho : ownerOf t s = .err ("Token ID cannot be empty.") s := by
        rw [ownerOf_run, if_pos ht]
      rw [M.bind_err_eval _ ho]
      simp [ht]
    · cases hl : AMap.lookup? s.tokenOwner t with
      | none =>
        have ho : ownerOf t s = .err ("Token does not exist.") s := by
          rw [ownerOf_run, if_neg ht, hl]
        rw [M.bind_err_eval _ ho]
        simp
      | some o =>
        have ho : ownerOf t s = .ok o s := by
          rw [ownerOf_run, if_neg ht, hl]
        rw [M.bind_ok_eval _ ho]
        try dsimp only
        by_cases hself : generateHashKey env toPk c.localSecret = o
        · have hm2 : (massert (generateHashKey env toPk c.localSecret ≠ o)
              ("Cannot approve yourself.") : M Unit) s = .err ("Cannot approve yourself.") s := by
            simp [massert, hself]
          rw [M.bind_err_eval _ hm2]
          constructor
          · intro h
            cases h
          · rintro ⟨-, -, o', ho', hself', -, -⟩
            obtain rfl := Option.some.inj ho'
            exact absurd hself hself'
        · have hm2 : (massert (generateHashKey env toPk c.localSecret ≠ o)
              ("Cannot approve yourself.") : M Unit) s = .ok () s := by
            simp [massert, hself]
          rw [M.bind_ok_eval _ hm2]
          try dsimp only
          rw [M.bind_ok_eval _ (isApprovedForAll_run env o (generateHashKey env c.pk c.localSecret) s)]
          try dsimp only
          by_cases hauth : generateHashKey env c.pk c.localSecret = o ∨
              (AMap.lookup? s.operatorApprovals
                (env.hashFF o (generateHashKey env c.pk c.localSecret))).getD false = true
          · have hm3 : (massert (generateHashKey env c.pk c.localSecret = o ∨
                (AMap.lookup? s.operatorApprovals
                  (env.hashFF o (generateHashKey env c.pk c.localSecret))).getD false = true)
                ("Not authorized.") : M Unit) s = .ok () s := by
              simp [massert, hauth]
            rw [M.bind_ok_eval _ hm3]
            try dsimp only
            constructor
            · intro h
              exact ⟨h0, ht, o, rfl, hself, hauth, (MRes.ok_inj h).2.symm⟩
            · rintro ⟨-, -, o', ho', -, -, rfl⟩
              obtain rfl := Option.some.inj ho'
              rfl
          · have hm3 : (massert (generateHashKey env c.pk c.localSecret = o ∨
                (AMap.lookup? s.operatorApprovals
                  (env.hashFF o (generateHashKey env c.pk c.localSecret))).getD false = true)
                ("Not authorized.") : M Unit) s = .err ("Not authorized.") s := by
              simp [massert, hauth]
            rw [M.bind_err_eval _ hm3]
            constructor
            · intro h
              cases h
            · rintro ⟨-, -, o', ho', -, hauth', -⟩
              obtain rfl := Option.some.inj ho'
              exact absurd hauth' hauth

theorem wf_step {env : Env} {s s' : State} (h : Step env s s') (hwf : WF s) : WF s' := by
  cases h with
  | ofMint c toPk tokenId s s' hop =>
    rw [mint_eq_addTokenTo] at hop
    exact wf_addTokenTo hop hwf
  | ofApprove c toPk tokenId s s' hop =>
    obtain ⟨-, -, o, -, -, -, rfl⟩ := approve_ok_iff.mp hop
    exact wf_of_maps_eq rfl rfl hwf
  | ofSetApprovalForAll c operator approved s s' hop =>
    obtain ⟨-, -, rfl⟩ := setApprovalForAll_ok_iff.mp hop
    exact wf_of_maps_eq rfl rfl hwf
  | ofTransfer c toPk tokenId s s' hop =>
    exact wf_transferFrom (transfer_ok_iff.mp hop).2 hwf
  | ofTransferFrom c fr toPk tokenId s s' hop => exact wf_transferFrom hop hwf
  | ofBurn c hk tokenId s s' hop => exact wf_burn hop hwf

/-- Every reachable ledger state is well-formed. -/
theorem reachable_wf {env : Env} {s : State} (h : Reachable env s) : WF s := by
  induction h with
  | refl => exact wf_emptyState
  | tail _ hstep ih => exact wf_step hstep ih

/-! ### Operator-approval shape invariant under honest callers -/

theorem addTokenTo_opApprovals {hk : Fld} {t : Nat} {s s' : State}
    (h : addTokenTo hk t s = .ok () s') : s'.operatorApprovals = s.operatorApprovals := by
  obtain ⟨-, -, rfl⟩ := addTokenTo_ok_iff.mp h
  rfl

theorem removeTokenFrom_opApprovals {hk : Fld} {t : Nat} {s s' : State}
    (h : removeTokenFrom hk t s = .ok () s') : s'.operatorApprovals = s.operatorApprovals := by
  obtain ⟨-, -, -, -, rfl⟩ := removeTokenFrom_ok_iff.mp h
  rfl

theorem transferFrom_opApprovals {env : Env} {c : Caller} {fr : Fld} {toPk : Bytes32}
    {t : Nat} {s s' : State} (h : transferFrom env c fr toPk t s = .ok () s') :
    s'.operatorApprovals = s.operatorApprovals := by
  obtain ⟨o, -, -, -, s4, s5, h4, h5, h6⟩ := transferFrom_ok_iff.mp h
  rw [addTokenTo_opApprovals h6, removeTokenFrom_opApprovals h5, (clearApproval_ok h4).2.2.1]

theorem burn_opApprovals {env : Env} {c : Caller} {hk : Fld} {t : Nat} {s s' : State}
    (h : burn env c hk t s = .ok () s') : s'.operatorApprovals = s.operatorApprovals := by
  obtain ⟨s4, h4, h5⟩ := burn_ok_iff.mp h
  rw [removeTokenFrom_opApprovals h5, (clearApproval_ok h4).2.2.1]

theorem opInv_of_eq {env : Env} {ls : Bytes32 → Bytes32} {S : Bytes32} {s s' : State}
    (heq : s'.operatorApprovals = s.operatorApprovals) (h : OpInv env ls S s) :
    OpInv env ls S s' := by
  intro k hk
  exact h k (heq ▸ hk)

theorem opInv_step {env : Env} {ls : Bytes32 → Bytes32} {S : Bytes32} {s s' : State}
    (h : StepH env ls S s s') (hinv : OpInv env ls S s) : OpInv env ls S s' := by
  cases h with
  | ofMint p toPk tokenId s s' hop =>
    rw [mint_eq_addTokenTo] at hop
    exact opInv_of_eq (addTokenTo_opApprovals hop) hinv
  | ofApprove p toPk tokenId s s' hop =>
    obtain ⟨-, -, o, -, -, -, rfl⟩ := approve_ok_iff.mp hop
    exact opInv_of_eq rfl hinv
  | ofSetApprovalForAll p operator approved s s' hop =>
    obtain ⟨h0, hp, rfl⟩ := setApprovalForAll_ok_iff.mp hop
    intro k hk
    simp only [AMap.lookup?_insert] at hk
    by_cases hkk : env.hashFF (generateHashKey env (honest ls S p).pk (honest ls S p).localSecret)
        (generateHashKey env operator (honest ls S p).sharedSecret) = k
    · rw [if_pos hkk] at hk
      exact ⟨p, operator, fun hr => hp (hr ▸ rfl), hkk.symm⟩
    · rw [if_neg hkk] at hk
      exact hinv k hk
  | ofTransfer p toPk tokenId s s' hop =>
    exact opInv_of_eq (transferFrom_opApprovals (transfer_ok_iff.mp hop).2) hinv
  | ofTransferFrom p fr toPk tokenId s s' hop =>
    exact opInv_of_eq (transferFrom_opApprovals hop) hinv
  | ofBurn p hk tokenId s s' hop =>
    exact opInv_of_eq (burn_opApprovals hop) hinv

theorem opInv_emptyState (env : Env) (ls : Bytes32 → Bytes32) (S : Bytes32) :
    OpInv env ls S emptyState := by
  intro k hk
  simp [emptyState] at hk

theorem reachableH_opInv {env : Env} {ls : Bytes32 → Bytes32} {S : Bytes32} {s : State}
    (h : ReachableH env ls S s) : OpInv env ls S s := by
  induction h with
  | refl => exact opInv_emptyState env ls S
  | tail _ hstep ih => exact opInv_step hstep ih

/-! ### Further success/abort helper lemmas -/

theorem execSt_eq_of_errsB {m : M Unit} {s : State} (h : errsB m s = true) :
    execSt m s = s := by
  unfold errsB at h
  unfold execSt
  cases hm : m s with
  | ok a s1 => rw [hm] at h; cases h
  | err e s1 => rfl

theorem errsB_of_err {α : Type} {m : M α} {s s1 : State} {e : String}
    (h : m s = .err e s1) : errsB m s = true := by
  unfold errsB
  rw [h]

theorem errsB_bind_of_err {α β : Type} {x : M α} {f : α → M β} {s s1 : State} {e : String}
    (hx : x s = .err e s1) : errsB (x >>= f) s = true :=
  errsB_of_err (M.bind_err_eval f hx)

theorem ownerOf_ok_iff {t : Nat} {s s1 : State} {hk : Fld} :
    ownerOf t s = .ok hk s1 ↔ t ≠ 0 ∧ AMap.lookup? s.tokenOwner t = some hk ∧ s1 = s := by
  rw [ownerOf_run]
  by_cases ht : t = 0
  · simp [ht]
  · rw [if_neg ht]
    cases hl : AMap.lookup? s.tokenOwner t with
    | none => simp
    | some o =>
      constructor
      · intro h
        obtain ⟨rfl, rfl⟩ := MRes.ok_inj h
        exact ⟨ht, rfl, rfl⟩
      · rintro ⟨-, ho, rfl⟩
        obtain rfl := Option.some.inj ho
        rfl

theorem clearApproval_ok_iff {hk : Fld} {t : Nat} {s s' : State} :
    clearApproval hk t s = .ok () s' ↔
      t ≠ 0 ∧ AMap.lookup? s.tokenOwner t = some hk ∧
        ((hk ≠ 0 ∧ s' = { s with tokenApprovals := AMap.remove s.tokenApprovals t }) ∨
          (hk = 0 ∧ s' = s)) := by
  rw [clearApproval_run]
  by_cases ht : t = 0
  · simp [ht]
  · rw [if_neg ht]
    cases hl : AMap.lookup? s.tokenOwner t with
    | none => simp
    | some o =>
      dsimp only
      by_cases ho : hk = o
      · subst ho
        rw [if_neg (not_not_intro rfl)]
        by_cases hz : hk = 0
        · rw [if_neg (not_not_intro hz)]
          constructor
          · intro h
            exact ⟨ht, rfl, Or.inr ⟨hz, (MRes.ok_inj h).2.symm⟩⟩
          · rintro ⟨-, -, ⟨hnz, -⟩ | ⟨-, rfl⟩⟩
            · exact absurd hz hnz
            · rfl
        · rw [if_pos hz]
          constructor
          · intro h
            exact ⟨ht, rfl, Or.inl ⟨hz, (MRes.ok_inj h).2.symm⟩⟩
          · rintro ⟨-, -, ⟨-, rfl⟩ | ⟨h0, -⟩⟩
            · rfl
            · exact absurd h0 hz
      · rw [if_pos (show hk ≠ o from ho)]
        constructor
        · intro h
          cases h
        · rintro ⟨-, ho', -⟩
          exact absurd (Option.some.inj ho').symm ho

/-- A burn whose hash key matches the recorded owner succeeds on every
well-formed state holding the token (with a nonzero id). -/
theorem burn_succeeds {env : Env} {c : Caller} {hk : Fld} {t : Nat} {s : State}
    (hwf : WF s) (ht : t ≠ 0) (hl : AMap.lookup? s.tokenOwner t = some hk) :
    burn env c hk t s = .ok () { s with
      tokenOwner := AMap.remove s.tokenOwner t,
      tokenApprovals := AMap.remove s.tokenApprovals t,
      ownedTokensCount := AMap.insert s.ownedTokensCount hk (balanceCount s hk - 1) } := by
  have hnz : hk ≠ 0 := hwf.1.2 (t, hk) (AMap.mem_of_lookup?_some hl)
  have hbc : 1 ≤ balanceCount s hk := by
    rw [hwf.2 hk]
    exact countVal_pos (AMap.mem_of_lookup?_some hl)
  apply burn_ok_iff.mpr
  refine ⟨{ s with tokenApprovals := AMap.remove s.tokenApprovals t }, ?_, ?_⟩
  · exact clearApproval_ok_iff.mpr ⟨ht, hl, Or.inl ⟨hnz, rfl⟩⟩
  · exact removeTokenFrom_ok_iff.mpr ⟨hnz, ht, hl, hbc, rfl⟩

/-! ### Claim theorems -/

/-- Claim C1: balance-counter consistency invariant — in every state
reachable from the empty ledger by successful mint, approve,
setApprovalForAll, transfer, transferFrom and burn operations, the
balance counter stored for every hash key `k` (0 if absent) equals the
number of `tokenOwner` entries whose value is `k`. -/
theorem claim_C1_balance_consistency (env : Env) (s : State) (h : Reachable env s) (k : Fld) :
    balanceCount s k = ownedCount s k :=
  (reachable_wf h).2 k

theorem claim_C1_balance_consistency_witness :
    balanceCount sOwned (Nat.pair 1 7) = ownedCount sOwned (Nat.pair 1 7) :=
  claim_C1_balance_consistency envPair sOwned
    (Relation.ReflTransGen.single (Step.ofMint ⟨1, 7, 5⟩ 1 1 emptyState sOwned (by decide)))
    (Nat.pair 1 7)

/-- Claim C3 counterexample: `mint(to, 0)` succeeds from the empty
ledger (the caller with public key 1 and local secret 2 mints token id 0
to itself), refuting the claim that `mint(to, 0)` always fails. -/
theorem claim_C3_counterexample :
    mint envPair ⟨1, 2, 3⟩ 1 0 emptyState = .ok () sZero := by decide

/-- Claim C3 (amended): `mint(to, tokenId)` fails with a precondition
violation and no state change whenever the token already exists or the
derived recipient hash key is the default value 0; the condition
`tokenId == 0` is not checked by `mint`. -/
theorem claim_C3_mint_preconditions (env : Env) (c : Caller) (toPk : Bytes32) (tokenId : Nat)
    (s : State) (h : tokenExists s tokenId = true ∨ mintHashKey env c toPk = 0) :
    errsB (mint env c toPk tokenId) s = true ∧ execSt (mint env c toPk tokenId) s = s := by
  have herr : ∃ e, mint env c toPk tokenId s = .err e s := by
    rw [mint_eq_addTokenTo, addTokenTo_run]
    by_cases h1 : AMap.lookup? s.tokenOwner tokenId = none
    · rcases h with h | h
      · rw [tokenExists, AMap.member, h1] at h
        cases h
      · rw [if_neg (not_not_intro h1), if_pos h]
        exact ⟨_, rfl⟩
    · rw [if_pos h1]
      exact ⟨_, rfl⟩
  obtain ⟨e, he⟩ := herr
  refine ⟨errsB_of_err he, execSt_eq_of_errsB (errsB_of_err he)⟩

theorem claim_C3_mint_preconditions_witness :
    errsB (mint envPair ⟨2, 3, 4⟩ 2 1) sOwned = true ∧
      execSt (mint envPair ⟨2, 3, 4⟩ 2 1) sOwned = sOwned :=
  claim_C3_mint_preconditions envPair ⟨2, 3, 4⟩ 2 1 sOwned (Or.inl (by decide))

/-- Claim C6 counterexample: a `mint` at token id 0 succeeds, but the
subsequent `ownerOf(0)` aborts instead of returning the derived hash
key, refuting the claim for `t = 0`. -/
theorem claim_C6_counterexample :
    mint envPair ⟨4, 5, 6⟩ 4 0 emptyState
        = .ok () ⟨[(0, Nat.pair 4 5)], [], [(Nat.pair 4 5, 1)], []⟩ ∧
      errsB (ownerOf 0) ⟨[(0, Nat.pair 4 5)], [], [(Nat.pair 4 5, 1)], []⟩ = true := by
  decide

/-- Claim C6 (amended): for `t ≠ 0`, whenever `mint(A, t)` succeeds the
subsequent `ownerOf(t)` returns `deriveHashKey(A, localSecret)` when the
caller minted to itself and `deriveHashKey(A, sharedSecret)` otherwise
(`mintHashKey`), and the recipient hash key's balance counter is lazily
created and incremented by one. -/
theorem claim_C6_mint_owner (env : Env) (c : Caller) (toPk : Bytes32) (t : Nat) (s s' : State)
    (hok : mint env c toPk t s = .ok () s') (ht : t ≠ 0) :
    ownerOf t s' = .ok (mintHashKey env c toPk) s' ∧
      balanceCount s' (mintHashKey env c toPk)
        = balanceCount s (mintHashKey env c toPk) + 1 := by
  rw [mint_eq_addTokenTo] at hok
  obtain ⟨h1, h2, rfl⟩ := addTokenTo_ok_iff.mp hok
  constructor
  · apply ownerOf_ok_iff.mpr
    refine ⟨ht, ?_, rfl⟩
    show AMap.lookup? (AMap.insert s.tokenOwner t (mintHashKey env c toPk)) t = _
    rw [AMap.lookup?_insert, if_pos rfl]
  · show (AMap.lookup? (AMap.insert s.ownedTokensCount (mintHashKey env c toPk)
        (balanceCount s (mintHashKey env c toPk) + 1)) (mintHashKey env c toPk)).getD 0 = _
    rw [getD_lookup?_insert, if_pos rfl]

theorem claim_C6_mint_owner_witness :
    ownerOf 1 sOwned = .ok (mintHashKey envPair ⟨1, 7, 5⟩ 1) sOwned ∧
      balanceCount sOwned (mintHashKey envPair ⟨1, 7, 5⟩ 1)
        = balanceCount emptyState (mintHashKey envPair ⟨1, 7, 5⟩ 1) + 1 :=
  claim_C6_mint_owner envPair ⟨1, 7, 5⟩ 1 1 emptyState sOwned (by decide) (by decide)

/-- Claim C7 counterexample: `balanceOf` aborts when queried with the
default (empty) owner identity, refuting "never fails". -/
theorem claim_C7_counterexample :
    errsB (balanceOf envPair ⟨1, 2, 3⟩ 0) emptyState = true := by decide

/-- Claim C7 (amended): for every owner identity other than the default
value, `balanceOf` never fails: it returns the balance counter of the
hash key it derives (local secret when the queried identity is the
caller's own, shared secret otherwise), and in particular returns 0
whenever the ledger holds no counter for that hash key. -/
theorem claim_C7_balanceOf_total (env : Env) (c : Caller) (owner : Bytes32) (s : State)
    (h : owner ≠ 0) :
    balanceOf env c owner s = .ok (balanceCount s (queryHashKey env c owner)) s ∧
      (AMap.lookup? s.ownedTokensCount (queryHashKey env c owner) = none →
        balanceOf env c owner s = .ok 0 s) := by
  have hrun := balanceOf_run env c owner s
  rw [if_neg h] at hrun
  refine ⟨hrun, fun habs => ?_⟩
  rw [hrun, balanceCount, habs]
  rfl

theorem claim_C7_balanceOf_total_witness :
    balanceOf envPair ⟨1, 7, 5⟩ 7 sOwned
        = .ok (balanceCount sOwned (queryHashKey envPair ⟨1, 7, 5⟩ 7)) sOwned ∧
      (AMap.lookup? sOwned.ownedTokensCount (queryHashKey envPair ⟨1, 7, 5⟩ 7) = none →
        balanceOf envPair ⟨1, 7, 5⟩ 7 sOwned = .ok 0 sOwned) :=
  claim_C7_balanceOf_total envPair ⟨1, 7, 5⟩ 7 sOwned (by decide)

/-- Claim C8: atomicity on error — whenever any of the six operations
aborts, the committed ledger state (all four maps, balance counters
included) equals the input state: the substrate discards every partial
mutation, even writes performed before a later assertion failed. -/
theorem claim_C8_atomicity (env : Env) (c : Caller) :
    (∀ (toPk : Bytes32) (t : Nat) (s : State),
      errsB (mint env c toPk t) s = true → execSt (mint env c toPk t) s = s) ∧
    (∀ (toPk : Bytes32) (t : Nat) (s : State),
      errsB (approve env c toPk t) s = true → execSt (approve env c toPk t) s = s) ∧
    (∀ (operator : Bytes32) (b : Bool) (s : State),
      errsB (setApprovalForAll env c operator b) s = true →
        execSt (setApprovalForAll env c operator b) s = s) ∧
    (∀ (toPk : Bytes32) (t : Nat) (s : State),
      errsB (transfer env c toPk t) s = true → execSt (transfer env c toPk t) s = s) ∧
    (∀ (fr : Fld) (toPk : Bytes32) (t : Nat) (s : State),
      errsB (transferFrom env c fr toPk t) s = true →
        execSt (transferFrom env c fr toPk t) s = s) ∧
    (∀ (hk : Fld) (t : Nat) (s : State),
      errsB (burn env c hk t) s = true → execSt (burn env c hk t) s = s) :=
  ⟨fun _ _ _ h => execSt_eq_of_errsB h, fun _ _ _ h => execSt_eq_of_errsB h,
   fun _ _ _ h => execSt_eq_of_errsB h, fun _ _ _ h => execSt_eq_of_errsB h,
   fun _ _ _ _ h => execSt_eq_of_errsB h, fun _ _ _ h => execSt_eq_of_errsB h⟩

theorem claim_C8_atomicity_witness :
    execSt (transferFrom envPair ⟨1, 7, 0⟩ (Nat.pair 1 7) 0 1) sApproved = sApproved ∧
      execSt (mint envPair ⟨2, 3, 4⟩ 2 1) sOwned = sOwned :=
  ⟨(claim_C8_atomicity envPair ⟨1, 7, 0⟩).2.2.2.2.1 (Nat.pair 1 7) 0 1 sApproved (by decide),
   (claim_C8_atomicity envPair ⟨2, 3, 4⟩).1 2 1 sOwned (by decide)⟩

/-- Claim C9: burn is caller-independent — the outcome of `burn` on a
given state and `(ownerHashKey, tokenId)` input is identical for any two
callers (any public keys, any witness secrets), and on a reachable state
possession of a hash key equal to what `ownerOf(tokenId)` returns is
sufficient for `burn` to succeed. -/
theorem claim_C9_burn_caller_independent :
    (∀ (env : Env) (c1 c2 : Caller) (hk : Fld) (t : Nat) (s : State),
      burn env c1 hk t s = burn env c2 hk t s) ∧
    (∀ (env : Env) (c : Caller) (s : State) (t : Nat) (hk : Fld),
      Reachable env s → ownerOf t s = .ok hk s →
        ∃ s', burn env c hk t s = .ok () s') := by
  constructor
  · intro env c1 c2 hk t s
    rfl
  · intro env c s t hk hreach hown
    obtain ⟨ht, hl, -⟩ := ownerOf_ok_iff.mp hown
    exact ⟨_, burn_succeeds (reachable_wf hreach) ht hl⟩

theorem claim_C9_burn_caller_independent_witness :
    (burn envPair ⟨1, 1, 1⟩ (Nat.pair 1 7) 1 sOwned
      = burn envPair ⟨2, 9, 9⟩ (Nat.pair 1 7) 1 sOwned) ∧
    (∃ s', burn envPair ⟨3, 4, 5⟩ (Nat.pair 1 7) 1 sOwned = .ok () s') :=
  ⟨claim_C9_burn_caller_independent.1 envPair ⟨1, 1, 1⟩ ⟨2, 9, 9⟩ (Nat.pair 1 7) 1 sOwned,
   claim_C9_burn_caller_independent.2 envPair ⟨3, 4, 5⟩ sOwned 1 (Nat.pair 1 7)
     (Relation.ReflTransGen.single (Step.ofMint ⟨1, 7, 5⟩ 1 1 emptyState sOwned (by decide)))
     (by decide)⟩

/-- Claim C10: token id 0 is mintable but permanently frozen —
`mint(to, 0)` can succeed; in every state `ownerOf(0)`, `getApproved(0)`,
`approve(_, 0)`, `transfer(_, 0)`, `transferFrom(_, _, 0)` and
`burn(_, 0)` all abort; and no successful operation ever removes or
changes an existing ownership entry for token id 0. -/
theorem claim_C10_token_zero_frozen :
    (mint envPair ⟨1, 2, 3⟩ 1 0 emptyState = .ok () sZero) ∧
    (∀ (env : Env) (c : Caller) (s : State) (toPk : Bytes32) (fr hk : Fld),
      errsB (ownerOf 0) s = true ∧ errsB (getApproved 0) s = true ∧
      errsB (approve env c toPk 0) s = true ∧ errsB (transfer env c toPk 0) s = true ∧
      errsB (transferFrom env c fr toPk 0) s = true ∧ errsB (burn env c hk 0) s = true) ∧
    (∀ (env : Env) (s s' : State) (k : Fld), Step env s s' →
      AMap.lookup? s.tokenOwner 0 = some k → AMap.lookup? s'.tokenOwner 0 = some k) := by
  refine ⟨by decide, ?_, ?_⟩
  · intro env c s toPk fr hk
    have hown : ownerOf 0 s = .err ("Token ID cannot be empty.") s := by
      rw [ownerOf_run, if_pos rfl]
    refine ⟨errsB_of_err hown, ?_, ?_, ?_, ?_, ?_⟩
    · exact errsB_of_err (by rw [getApproved_run, if_pos rfl])
    · by_cases h0 : toPk = 0
      · rw [approve]
        exact errsB_bind_of_err (by rw [massert]; rw [if_neg (not_not_intro h0)])
      · have hm : (massert (toPk ≠ 0) ("Approved account cannot be empty.") : M Unit) s
            = .ok () s := by simp [massert, h0]
        apply errsB_of_err
        rw [approve, M.bind_ok_eval _ hm]
        try dsimp only
        exact M.bind_err_eval _ hown
    · exact errsB_bind_of_err (by rw [massert]; rw [if_neg (not_not_intro rfl)])
    · exact errsB_bind_of_err (by rw [massert]; rw [if_neg (not_not_intro rfl)])
    · rw [burn]
      have hca : clearApproval hk 0 s = .err ("Token ID cannot be empty.") s := by
        rw [clearApproval_run, if_pos rfl]
      exact errsB_bind_of_err hca
  · intro env s s' k hstep hmem
    cases hstep with
    | ofMint c toPk tokenId s s' hop =>
      rw [mint_eq_addTokenTo] at hop
      obtain ⟨h1, -, rfl⟩ := addTokenTo_ok_iff.mp hop
      by_cases ht : tokenId = 0
      · subst ht
        rw [hmem] at h1
        cases h1
      · show AMap.lookup? (AMap.insert s.tokenOwner tokenId _) 0 = _
        rw [AMap.lookup?_insert, if_neg ht]
        exact hmem
    | ofApprove c toPk tokenId s s' hop =>
      obtain ⟨-, -, o, -, -, -, rfl⟩ := approve_ok_iff.mp hop
      exact hmem
    | ofSetApprovalForAll c operator approved s s' hop =>
      obtain ⟨-, -, rfl⟩ := setApprovalForAll_ok_iff.mp hop
      exact hmem
    | ofTransfer c toPk tokenId s s' hop =>
      obtain ⟨o, ht, -, -, s4, s5, h4, h5, h6⟩ :=
        transferFrom_ok_iff.mp (transfer_ok_iff.mp hop).2
      obtain ⟨hc1, -, -, -⟩ := clearApproval_ok h4
      obtain ⟨-, -, -, -, rfl⟩ := removeTokenFrom_ok_iff.mp h5
      obtain ⟨-, -, rfl⟩ := addTokenTo_ok_iff.mp h6
      show AMap.lookup? (AMap.insert (AMap.remove s4.tokenOwner tokenId) tokenId _) 0 = _
      rw [AMap.lookup?_insert, if_neg ht, AMap.lookup?_remove,
        if_neg (fun hh => ht hh.symm), hc1]
      exact hmem
    | ofTransferFrom c fr toPk tokenId s s' hop =>
      obtain ⟨o, ht, -, -, s4, s5, h4, h5, h6⟩ := transferFrom_ok_iff.mp hop
      obtain ⟨hc1, -, -, -⟩ := clearApproval_ok h4
      obtain ⟨-, -, -, -, rfl⟩ := removeTokenFrom_ok_iff.mp h5
      obtain ⟨-, -, rfl⟩ := addTokenTo_ok_iff.mp h6
      show AMap.lookup? (AMap.insert (AMap.remove s4.tokenOwner tokenId) tokenId _) 0 = _
      rw [AMap.lookup?_insert, if_neg ht, AMap.lookup?_remove,
        if_neg (fun hh => ht hh.symm), hc1]
      exact hmem
    | ofBurn c hk tokenId s s' hop =>
      obtain ⟨s4, h4, h5⟩ := burn_ok_iff.mp hop
      obtain ⟨hc1, -, -, -⟩ := clearApproval_ok h4
      obtain ⟨-, ht, -, -, rfl⟩ := removeTokenFrom_ok_iff.mp h5
      show AMap.lookup? (AMap.remove s4.tokenOwner tokenId) 0 = _
      rw [AMap.lookup?_remove, if_neg (fun hh => ht hh.symm), hc1]
      exact hmem

theorem claim_C10_token_zero_frozen_witness :
    AMap.lookup? sZeroPlus.tokenOwner 0 = some (Nat.pair 1 2) :=
  claim_C10_token_zero_frozen.2.2 envPair sZero sZeroPlus (Nat.pair 1 2)
    (Step.ofMint ⟨1, 2, 3⟩ 1 1 sZero sZeroPlus (by decide)) (by decide)

/-- Claim C2 counterexample: with the preconditions of the claim all
satisfied (token 1 exists, the caller's derived hash key equals the
recorded owner, `fromHashKey` equals the owner) a `transferFrom` whose
derived recipient hash key coincides with `fromHashKey` succeeds, yet
the sender balance is NOT decremented by one. -/
theorem claim_C2_counterexample :
    AMap.lookup? sOwned.tokenOwner 1 = some (Nat.pair 1 7) ∧
      generateHashKey envPair 1 7 = Nat.pair 1 7 ∧
      transferFrom envPair ⟨1, 7, 7⟩ (Nat.pair 1 7) 1 1 sOwned = .ok () sOwned ∧
      ¬ balanceCount sOwned (Nat.pair 1 7) = balanceCount sOwned (Nat.pair 1 7) - 1 := by
  decide

/-- Claim C2 (amended): whenever `transferFrom(fromHashKey, B, t)`
succeeds and the derived recipient hash key
`deriveHashKey(B, sharedSecret)` differs from `fromHashKey`, the new
state has no approval entry for `t` (`getApproved(t)` aborts with
`NotFound`), records `deriveHashKey(B, sharedSecret)` as the owner of
`t`, decrements `fromHashKey`'s balance by one and increments the
recipient hash key's balance by one. -/
theorem claim_C2_transferFrom (env : Env) (c : Caller) (fr : Fld) (toPk : Bytes32) (t : Nat)
    (s s' : State) (hok : transferFrom env c fr toPk t s = .ok () s')
    (hne : generateHashKey env toPk c.sharedSecret ≠ fr) :
    AMap.lookup? s'.tokenApprovals t = none ∧
      errsB (getApproved t) s' = true ∧
      AMap.lookup? s'.tokenOwner t = some (generateHashKey env toPk c.sharedSecret) ∧
      balanceCount s' fr = balanceCount s fr - 1 ∧
      balanceCount s' (generateHashKey env toPk c.sharedSecret)
        = balanceCount s (generateHashKey env toPk c.sharedSecret) + 1 := by
  obtain ⟨o, ht, hl, -, s4, s5, h4, h5, h6⟩ := transferFrom_ok_iff.mp hok
  obtain ⟨-, hl4, hdis⟩ := clearApproval_ok_iff.mp h4
  obtain ⟨hfr0, -, hl5, hbc5, rfl⟩ := removeTokenFrom_ok_iff.mp h5
  rcases hdis with ⟨-, rfl⟩ | ⟨hfr0', -⟩
  swap
  · exact absurd hfr0' hfr0
  obtain ⟨-, -, rfl⟩ := addTokenTo_ok_iff.mp h6
  have h1 : AMap.lookup? (AMap.remove s.tokenApprovals t) t = none := by
    rw [AMap.lookup?_remove, if_pos rfl]
  have h3 : AMap.lookup? (AMap.insert (AMap.remove s.tokenOwner t) t
      (generateHashKey env toPk c.sharedSecret)) t
      = some (generateHashKey env toPk c.sharedSecret) := by
    rw [AMap.lookup?_insert, if_pos rfl]
  refine ⟨h1, ?_, h3, ?_, ?_⟩
  · simp [errsB, getApproved_run, ht, h1, h3]
  · show (AMap.lookup? (AMap.insert _ (generateHashKey env toPk c.sharedSecret) _) fr).getD 0
        = balanceCount s fr - 1
    rw [getD_lookup?_insert, if_neg hne]
    show (AMap.lookup? (AMap.insert s.ownedTokensCount fr _) fr).getD 0 = _
    rw [getD_lookup?_insert, if_pos rfl]
    rfl
  · show (AMap.lookup? (AMap.insert _ (generateHashKey env toPk c.sharedSecret) _)
        (generateHashKey env toPk c.sharedSecret)).getD 0
        = balanceCount s (generateHashKey env toPk c.sharedSecret) + 1
    rw [getD_lookup?_insert, if_pos rfl]
    show (AMap.lookup? (AMap.insert s.ownedTokensCount fr _)
        (generateHashKey env toPk c.sharedSecret)).getD 0 + 1 = _
    rw [getD_lookup?_insert, if_neg (fun hh => hne hh.symm)]
    rfl

theorem claim_C2_transferFrom_witness :
    AMap.lookup? sTransferred.tokenApprovals 1 = none ∧
      errsB (getApproved 1) sTransferred = true ∧
      AMap.lookup? sTransferred.tokenOwner 1 = some (generateHashKey envPair 2 3) ∧
      balanceCount sTransferred (Nat.pair 1 7) = balanceCount sApproved (Nat.pair 1 7) - 1 ∧
      balanceCount sTransferred (generateHashKey envPair 2 3)
        = balanceCount sApproved (generateHashKey envPair 2 3) + 1 :=
  claim_C2_transferFrom envPair ⟨1, 7, 3⟩ (Nat.pair 1 7) 2 1 sApproved sTransferred
    (by decide) (by decide)

/-- Claim C5 counterexample: `sZero` is reachable (mint token id 0 from
the empty ledger) and holds token 0 with a matching owner hash key, yet
`burn` of token 0 by that hash key aborts — refuting "burn succeeds"
for every state in which the token exists and the hash key matches. -/
theorem claim_C5_counterexample :
    Reachable envPair sZero ∧
      AMap.lookup? sZero.tokenOwner 0 = some (Nat.pair 1 2) ∧
      errsB (burn envPair ⟨1, 2, 3⟩ (Nat.pair 1 2) 0) sZero = true :=
  ⟨Relation.ReflTransGen.single (Step.ofMint ⟨1, 2, 3⟩ 1 0 emptyState sZero (by decide)),
   by decide, by decide⟩

/-- Claim C5 (amended): on every reachable state in which token `t`
exists with `t ≠ 0` and `ownerHashKey` equals the recorded owner,
`burn(ownerHashKey, t)` succeeds and afterwards both `ownerOf(t)` and
`getApproved(t)` abort, the ownership and approval entries for `t` are
absent, and `ownerHashKey`'s balance counter is decremented by one; and
on every state, `burn` fails whenever the token does not exist or
`ownerHashKey` differs from the recorded owner. -/
theorem claim_C5_burn (env : Env) (c : Caller) :
    (∀ (s : State) (t : Nat) (hk : Fld), Reachable env s → t ≠ 0 →
      AMap.lookup? s.tokenOwner t = some hk →
        ∃ s', burn env c hk t s = .ok () s' ∧
          errsB (ownerOf t) s' = true ∧ errsB (getApproved t) s' = true ∧
          AMap.lookup? s'.tokenOwner t = none ∧ AMap.lookup? s'.tokenApprovals t = none ∧
          balanceCount s' hk = balanceCount s hk - 1) ∧
    (∀ (s : State) (t : Nat) (hk : Fld), AMap.lookup? s.tokenOwner t ≠ some hk →
      errsB (burn env c hk t) s = true) := by
  constructor
  · intro s t hk hreach ht hl
    have hnone : AMap.lookup? (AMap.remove s.tokenOwner t) t = none := by
      rw [AMap.lookup?_remove, if_pos rfl]
    refine ⟨_, burn_succeeds (reachable_wf hreach) ht hl, ?_, ?_, hnone, ?_, ?_⟩
    · simp [errsB, ownerOf_run, ht, hnone]
    · simp [errsB, getApproved_run, ht, hnone]
    · show AMap.lookup? (AMap.remove s.tokenApprovals t) t = none
      rw [AMap.lookup?_remove, if_pos rfl]
    · show (AMap.lookup? (AMap.insert s.ownedTokensCount hk (balanceCount s hk - 1)) hk).getD 0
          = balanceCount s hk - 1
      rw [getD_lookup?_insert, if_pos rfl]
  · intro s t hk hne
    rw [burn]
    by_cases ht : t = 0
    · exact errsB_bind_of_err (by rw [clearApproval_run, if_pos ht])
    · cases hl : AMap.lookup? s.tokenOwner t with
      | none =>
        have hca : clearApproval hk t s = .err ("Token does not exist.") s := by
          rw [clearApproval_run, if_neg ht, hl]
        exact errsB_bind_of_err hca
      | some o =>
        have ho : hk ≠ o := fun hh => hne (by rw [hl, hh])
        have hca : clearApproval hk t s = .err ("Public key is not the owner.") s := by
          rw [clearApproval_run, if_neg ht, hl]
          dsimp only
          rw [if_pos (show hk ≠ o from ho)]
        exact errsB_bind_of_err hca

theorem claim_C5_burn_witness :
    (∃ s', burn envPair ⟨8, 8, 8⟩ (Nat.pair 1 7) 1 sOwned = .ok () s' ∧
      errsB (ownerOf 1) s' = true ∧ errsB (getApproved 1) s' = true ∧
      AMap.lookup? s'.tokenOwner 1 = none ∧ AMap.lookup? s'.tokenApprovals 1 = none ∧
      balanceCount s' (Nat.pair 1 7) = balanceCount sOwned (Nat.pair 1 7) - 1) ∧
    errsB (burn envPair ⟨8, 8, 8⟩ 5 1) emptyState = true :=
  ⟨(claim_C5_burn envPair ⟨8, 8, 8⟩).1 sOwned 1 (Nat.pair 1 7)
      (Relation.ReflTransGen.single (Step.ofMint ⟨1, 7, 5⟩ 1 1 emptyState sOwned (by decide)))
      (by decide) (by decide),
   (claim_C5_burn envPair ⟨8, 8, 8⟩).2 emptyState 1 5 (by decide)⟩

/-- Claim C4: under the cryptographic idealisation that both
`transientHash` instantiations are injective, and with honest witnesses
(each party's local secret is a function of its identity, the shared
secret is a single global value, and no local secret equals the shared
secret), on every reachable state a caller that invokes `approve` with
its own identity fails, whatever the token and however its owner hash
key was derived; and `setApprovalForAll` with the caller's own identity
as operator fails on every state. -/
theorem claim_C4_no_self_approval (env : Env) (ls : Bytes32 → Bytes32) (S : Bytes32)
    (hBB : ∀ a b a' b', env.hashBB a b = env.hashBB a' b' → a = a' ∧ b = b')
    (hFF : ∀ a b a' b', env.hashFF a b = env.hashFF a' b' → a = a' ∧ b = b')
    (hls : ∀ p, ls p ≠ S) :
    (∀ (s : State), ReachableH env ls S s → ∀ (p : Bytes32) (t : Nat),
      errsB (approve env (honest ls S p) p t) s = true) ∧
    (∀ (c : Caller) (b : Bool) (s : State),
      errsB (setApprovalForAll env c c.pk b) s = true) := by
  constructor
  · intro s hreach p t
    cases ha : approve env (honest ls S p) p t s with
    | err e s1 => rw [errsB, ha]
    | ok u s1 =>
      exfalso
      obtain ⟨-, -, o, hl, hself, hauth, -⟩ := approve_ok_iff.mp ha
      rcases hauth with hown | hop
      · exact hself hown
      · have hlook : AMap.lookup? s.operatorApprovals
            (env.hashFF o (generateHashKey env (honest ls S p).pk (honest ls S p).localSecret))
            = some true := by
          cases hq : AMap.lookup? s.operatorApprovals
              (env.hashFF o (generateHashKey env (honest ls S p).pk
                (honest ls S p).localSecret)) with
          | none => rw [hq, Option.getD_none] at hop; cases hop
          | some b => rw [hq, Option.getD_some] at hop; rw [hop]
        obtain ⟨q, r, hrq, hkey⟩ := reachableH_opInv hreach _ hlook
        obtain ⟨-, hs⟩ := hFF _ _ _ _ hkey
        obtain ⟨-, hlsS⟩ := hBB _ _ _ _ hs
        exact hls p hlsS
  · intro c b s
    by_cases hz : c.pk = 0
    · rw [errsB, setApprovalForAll_run, if_pos hz]
    · rw [errsB, setApprovalForAll_run, if_neg hz, if_pos rfl]

theorem claim_C4_no_self_approval_witness :
    errsB (approve envPair (honest (fun p => p + 1) 0 1) 1 1) emptyState = true ∧
      errsB (setApprovalForAll envPair ⟨1, 2, 3⟩ 1 true) emptyState = true := by
  have h := claim_C4_no_self_approval envPair (fun p => p + 1) 0
    (fun a b a' b' hh => Nat.pair_eq_pair.mp hh)
    (fun a b a' b' hh => Nat.pair_eq_pair.mp hh)
    (fun p => Nat.succ_ne_zero p)
  exact ⟨h.1 emptyState Relation.ReflTransGen.refl 1 1, h.2 ⟨1, 2, 3⟩ true emptyState⟩

end NftZk
